import Mathlib

/-!
Verification of the diceodel reroll-combiner engine.

The development shallowly embeds the comparison module (`comparison.mjs`),
the integer checker (`integer.mjs`) and the reroll combiners
(`rerolling.mjs`).  JavaScript `undefined` arising as a comparison result
is modelled by `Option.none`; thrown exceptions are modelled by
`Except.error` carrying the message of the thrown error.  JavaScript
numbers that are integral are modelled by `Int`; array reads that cannot
go out of range in any considered run use `List.getD` with a default.
-/

namespace Diceodel

/-- ComparisonResult from comparison.mjs: `undefined` (incomparable) or an
integer whose sign carries the ordering. -/
abbrev ComparisonResult := Option Int

/-- Compare callback type from comparison.mjs. -/
abbrev Compare (α : Type) := α → α → ComparisonResult

/-- DefaultComparison (comparison.mjs lines 31-38).  The body evaluates
`a === b ? 0 : (a < b ? -1 : (b < a ? 1 : undefined))`, but no identifiers
`a` and `b` are in scope — the parameters are named `compared` and
`comparee`.  Evaluating the expression therefore raises a ReferenceError,
which the surrounding try/catch converts into `undefined`.  Hence the
function returns `undefined` for every pair of arguments. -/
def DefaultComparison {α : Type} (compared comparee : α) : ComparisonResult :=
  none

/-- Loop of indirectBinarySearch (comparison.mjs lines 70-90), with an
explicit fuel argument for structural recursion.  The function is always
entered with `fuel = stop - start`, which makes the fuel-exhaustion branch
coincide with the loop-exit branch (`start < stop` fails exactly when the
remaining fuel is zero at entry). -/
def ibsLoop {α : Type} [Inhabited α] (source : List α) (idx : List Nat)
    (seeked : α) (cmp : Compare α) : Nat → Nat → Nat → Option Int
  | 0, start, _stop => some (-1 - (start : Int))
  | Nat.succ fuel, start, stop =>
    if start < stop then
      let cursor := (start + stop) / 2
      match cmp (source.getD (idx.getD cursor 0) default) seeked with
      | none => none
      | some c =>
        if c = 0 then
          some (cursor : Int)
        else if c < 0 then
          ibsLoop source idx seeked cmp fuel start cursor
        else
          ibsLoop source idx seeked cmp fuel (cursor + 1) stop
    else
      some (-1 - (start : Int))

/-- indirectBinarySearch (comparison.mjs lines 62-91).  Start and end
indexes are JavaScript numbers, modelled by `Int`; a `RangeError` is
thrown when `start < 0` or `end > sortedIndexes.length`.  After the
checks `start` is non-negative, so the loop state is a pair of naturals;
`Math.floor((start + end) / 2)` is natural division by two. -/
def indirectBinarySearch {α : Type} [Inhabited α] (source : List α)
    (idx : List Nat) (seeked : α) (start stop : Int) (cmp : Compare α) :
    Except String (Option Int) :=
  if start < 0 then
    Except.error "RangeError: Invalid start index"
  else if stop > (idx.length : Int) then
    Except.error "RangeError: Invalid end index"
  else
    Except.ok (ibsLoop source idx seeked cmp (stop.toNat - start.toNat)
      start.toNat stop.toNat)

/-- Test `cmp < 0` of comparison.mjs line 124: in JavaScript
`undefined < 0` is false. -/
def ltZero (r : ComparisonResult) : Bool :=
  match r with
  | none => false
  | some c => decide (c < 0)

/-- While loop of comparison.mjs lines 126-128: walk the insertion index
down to the first position whose value equals `compared`.  The recursion
is structural in the insertion index itself. -/
def walkDown {α : Type} [Inhabited α] (source : List α) (idx : List Nat)
    (cmp : Compare α) (compared : α) : Nat → Nat
  | 0 => 0
  | Nat.succ k =>
    if cmp (source.getD (idx.getD k 0) default) compared = some 0 then
      walkDown source idx cmp compared k
    else
      Nat.succ k

/-- While loop of comparison.mjs lines 131-133: walk the insertion index
up to the last position whose value equals `compared`.  Fuel-based; every
call site passes `idx.length`, which bounds the number of iterations. -/
def walkUp {α : Type} [Inhabited α] (source : List α) (idx : List Nat)
    (cmp : Compare α) (compared : α) : Nat → Nat → Nat
  | 0, ii => ii
  | Nat.succ fuel, ii =>
    if ii < idx.length - 1 ∧
        cmp (source.getD (idx.getD (ii + 1) 0) default) compared = some 0 then
      walkUp source idx cmp compared fuel (ii + 1)
    else
      ii

/-- Duplicate resolution of indirectBinarySearchWithDuplicates
(comparison.mjs lines 121-141), applied to a defined integer
`baseResult`: recover the insertion index, walk it to the first or last
position of the equal run of the value found there, and re-encode the
negative marker. -/
def dupResolve {α : Type} [Inhabited α] (source : List α) (idx : List Nat)
    (seeked : α) (cmp : Compare α) (returnFirstPosition : Bool)
    (baseResult : Int) : Int :=
  let ii0 : Nat := (if baseResult < 0 then -1 - baseResult else baseResult).toNat
  let ii : Nat :=
    if ii0 < idx.length then
      let compared := source.getD (idx.getD ii0 0) default
      let branchFirst : Bool :=
        if baseResult < 0 then
          (if ltZero (cmp seeked compared) then returnFirstPosition
           else !returnFirstPosition)
        else returnFirstPosition
      if branchFirst then
        walkDown source idx cmp compared ii0
      else
        walkUp source idx cmp compared idx.length ii0
    else ii0
  if baseResult < 0 then -1 - (ii : Int) else (ii : Int)

/-- indirectBinarySearchWithDuplicates (comparison.mjs lines 111-143).
The options object is passed with explicit fields; `returnFirstPosition`
is `false` when absent.  A `baseResult` of `undefined` is propagated (the
`Number.isNaN` guard is vacuous for integer results); a defined one is
handed to `dupResolve`. -/
def indirectBinarySearchWithDuplicates {α : Type} [Inhabited α]
    (source : List α) (idx : List Nat) (seeked : α) (start stop : Int)
    (cmp : Compare α) (returnFirstPosition : Bool) :
    Except String (Option Int) :=
  match indirectBinarySearch source idx seeked start stop cmp with
  | Except.error e => Except.error e
  | Except.ok none => Except.ok none
  | Except.ok (some baseResult) =>
    Except.ok (some (dupResolve source idx seeked cmp returnFirstPosition
      baseResult))

/-- JavaScript `array.splice(pos, 0, a)` for `pos ≥ 0`: insert `a` at
position `pos`, appending when `pos` exceeds the length. -/
def spliceInsert {β : Type} (l : List β) (pos : Nat) (a : β) : List β :=
  l.take pos ++ a :: l.drop pos

/-- Body of the `reduce` callback shared by `KeepBestCombiner.combine`
(rerolling.mjs lines 406-419) and `KeepWorstCombiner.combine` (lines
472-485): search for the current value in the sorted index list, throw a
SyntaxError on an incomparable result, insert the current roll position
(after the last equal entry when the value was found), then drop the tail
beyond `count`. -/
def combineStep {α : Type} [Inhabited α] (roll : List α) (cmp : Compare α)
    (count : Nat) (result : List Nat) (index : Nat) :
    Except String (List Nat) :=
  match indirectBinarySearchWithDuplicates roll result (roll.getD index default)
      0 (result.length : Int) cmp false with
  | Except.error e => Except.error e
  | Except.ok none => Except.error "Cannot combine a roll with non-comparable values"
  | Except.ok (some resultIndex) =>
    let insertionIndex : Nat :=
      (if resultIndex < 0 then -1 - resultIndex else resultIndex + 1).toNat
    let inserted := spliceInsert result insertionIndex index
    let trimmed := if count < inserted.length then inserted.take count else inserted
    Except.ok trimmed

/-- The `roll.reduce(..., [])` pass over the roll, producing the sorted
index list (rerolling.mjs lines 406-420 and 472-486): the callback is fed
the positions `0, 1, ..., roll.length - 1` in order. -/
def keepCombineIndices {α : Type} [Inhabited α] (cmp : Compare α)
    (count : Nat) (roll : List α) : Except String (List Nat) :=
  (List.range roll.length).foldlM
    (fun result index => combineStep roll cmp count result index) []

/-- KeepBestCombiner.combine (rerolling.mjs lines 404-425) for an array
argument: the constructor stores the flipped comparator
`(a, b) => compare(b, a)` (line 378), and the final `map` resolves the
kept indexes back to roll values. -/
def KeepBestCombiner.combine {α : Type} [Inhabited α] (cmp : Compare α)
    (count : Nat) (roll : List α) : Except String (List α) :=
  (keepCombineIndices (fun a b => cmp b a) count roll).map
    (fun idxs => idxs.map (fun i => roll.getD i default))

/-- KeepWorstCombiner.combine (rerolling.mjs lines 470-491) for an array
argument: the constructor stores the comparator unchanged (line 444). -/
def KeepWorstCombiner.combine {α : Type} [Inhabited α] (cmp : Compare α)
    (count : Nat) (roll : List α) : Except String (List α) :=
  (keepCombineIndices cmp count roll).map
    (fun idxs => idxs.map (fun i => roll.getD i default))

/-- The `count` getter of KeepLastCombiner (rerolling.mjs lines 334-336):
its body `this.#count;` evaluates the private field and discards it, and
the getter has no return statement, so it yields `undefined` — modelled
as `none` — regardless of the stored count. -/
def KeepLastCombiner.count (_stored : Int) : Option Int :=
  none

/-- KeepLastCombiner.combine (rerolling.mjs lines 350-357) for an array
argument: `roll.slice(Math.max(0, roll.length - this.count))`.  Because
the `count` getter yields `undefined`, `roll.length - undefined` is `NaN`,
`Math.max(0, NaN)` is `NaN`, and `slice(NaN)` coerces `NaN` to `0`: the
whole roll is returned.  The `some` branch is the computation that would
run if the getter returned the stored count. -/
def KeepLastCombiner.combine {α : Type} (stored : Int) (roll : List α) :
    List α :=
  match KeepLastCombiner.count stored with
  | none => roll
  | some k => roll.drop (max 0 ((roll.length : Int) - k)).toNat

/-- Options of checkInteger (integer.mjs lines 108-115).  The constraint
callback models a JavaScript function value; it may yield `undefined`
(modelled `none`) when its body has no return statement. -/
structure IntegerCheckerOptions where
  allowInfinity : Bool := false
  allowUnsafe : Bool := false
  message : String := "Value was not an integer"
  constraint : Option (Int → Option Bool) := none

/-- checkInteger (integer.mjs lines 124-140) on an integral number.  The
`constraint` option is destructured on line 125 but never applied: the
function only tests `Number.isSafeInteger` (and `Number.isInteger` under
`allowUnsafe`; the infinity branch cannot trigger for an integer input).
A safe integer has absolute value at most `2 ^ 53 - 1`. -/
def checkInteger (value : Int) (options : IntegerCheckerOptions) :
    Except String Int :=
  if value.natAbs ≤ 2 ^ 53 - 1 then Except.ok value
  else if options.allowUnsafe then Except.ok value
  else Except.error options.message

/-- Count validation in the KeepBestCombiner constructor (rerolling.mjs
line 379): `checkInteger(count, { constraint(value) { value >= 0 } })`.
The constraint's body evaluates `value >= 0` and discards the result, so
the callback returns `undefined`; `checkInteger` never calls it anyway. -/
def KeepBestCombiner.mkCount (count : Int) : Except String Int :=
  checkInteger count { constraint := some (fun _value => none) }

/-- Count validation in the KeepWorstCombiner constructor (rerolling.mjs
line 445), identical to the KeepBestCombiner one. -/
def KeepWorstCombiner.mkCount (count : Int) : Except String Int :=
  checkInteger count { constraint := some (fun _value => none) }

/-- A correct natural-order three-way comparison on integers: the
comparator the specification intends `DefaultComparison` to be on
numbers. -/
def natOrderCmp (a b : Int) : Int :=
  if a < b then -1 else if b < a then 1 else 0

/-- The natural-order comparator packaged as a `Compare Int`. -/
def natOrderCompare : Compare Int := fun a b => some (natOrderCmp a b)

/-- A partial comparator on integers that declares the single pair
`(5, 99)` incomparable (in both argument orders) and otherwise follows
natural order. -/
def partialNatCompare : Compare Int := fun a b =>
  if (a = 5 ∧ b = 99) ∨ (a = 99 ∧ b = 5) then none
  else some (natOrderCmp a b)

/-! ## Claim theorems: concrete evaluations -/

/-- C1: the claim states that `KeepBestCombiner(1).combine([3, 5, 2, 1, 0])`
under natural numeric order returns `[5]` (the largest value).  The code
returns `[0]`, the smallest value: the binary search keeps the index set
sorted descending under the comparator it is given, so the flipped
comparator stored by `KeepBestCombiner` makes the kept prefix the
smallest values in ascending order.  With the default comparator (which
always yields `undefined`) the call throws instead. -/
theorem claim_C1 :
    KeepBestCombiner.combine natOrderCompare 1 [3, 5, 2, 1, 0] = Except.ok [0] ∧
    KeepBestCombiner.combine DefaultComparison 1 [(3 : Int), 5, 2, 1, 0] =
      Except.error "Cannot combine a roll with non-comparable values" :=
  ⟨rfl, rfl⟩

/-- C2: the claim states that `KeepWorstCombiner(3).combine([3, 5, 2, 1, 0])`
under natural numeric order returns `[0, 1, 2]` (the smallest values,
ascending).  The code returns `[5, 3, 2]`: the three largest values in
descending order, because the binary search keeps the index set sorted
descending under the unflipped comparator stored by
`KeepWorstCombiner`. -/
theorem claim_C2 :
    KeepWorstCombiner.combine natOrderCompare 3 [3, 5, 2, 1, 0] =
      Except.ok [5, 3, 2] :=
  rfl

/-- C3: the claim states that `DefaultComparison(a, b)` returns `0` when
`a` equals `b` (and signed results for ordered values).  The code returns
`undefined` for every input — its body reads identifiers `a` and `b`
that are not in scope, and the resulting ReferenceError is caught and
converted to `undefined` — so already `DefaultComparison(3, 3)` is
`undefined` instead of `0`. -/
theorem claim_C3 :
    DefaultComparison (3 : Int) 3 = none ∧
    ∀ (a b : Int), DefaultComparison a b = none :=
  ⟨rfl, fun _ _ => rfl⟩

/-- C5: the claim states that `KeepLastCombiner(2).combine([1,2,3,4,5,6])`
returns `[5, 6]`.  The code returns the whole roll: the `count` getter
has no return statement, so it yields `undefined`, making the slice start
`Math.max(0, roll.length - undefined)` evaluate to `NaN`, which `slice`
coerces to `0`. -/
theorem claim_C5 :
    KeepLastCombiner.combine 2 [(1 : Int), 2, 3, 4, 5, 6] = [1, 2, 3, 4, 5, 6] ∧
    KeepLastCombiner.combine 2 [(1 : Int), 2, 3, 4, 5, 6] ≠ [5, 6] :=
  ⟨rfl, by decide⟩

/-- C9: the claim states that constructing `KeepBestCombiner(-1)` or
`KeepWorstCombiner(-1)` fails immediately with a configuration error.
The code accepts `-1`: `checkInteger` never applies the `constraint`
option (and the constraint callback itself returns `undefined` because
its body discards the comparison), so the count validation of both
constructors succeeds on any safe integer. -/
theorem claim_C9 :
    KeepBestCombiner.mkCount (-1) = Except.ok (-1) ∧
    KeepWorstCombiner.mkCount (-1) = Except.ok (-1) :=
  ⟨rfl, rfl⟩

/-- C7 counterexample: the claim states that every roll containing an
`Incomparable` pair makes the combiners fail.  The roll `[0, 5, 99]`
contains the incomparable pair `(5, 99)` of `partialNatCompare`, yet
`KeepBestCombiner(1)` combines it successfully (to `[0]`): the pair is
never compared, because each of `5` and `99` is only compared against the
kept element `0`. -/
theorem claim_C7_counterexample :
    partialNatCompare 5 99 = none ∧ partialNatCompare 99 5 = none ∧
    KeepBestCombiner.combine partialNatCompare 1 [0, 5, 99] = Except.ok [0] :=
  ⟨rfl, rfl, rfl⟩

/-- C4 counterexample: the claim requires the referenced values to be
sorted non-decreasingly and promises an insertion offset that keeps them
sorted.  On the non-decreasing values `[1, 2, 3]` (indexes `[0, 1, 2]`)
with seek value `0`, the search returns the marker `-4`, i.e. insertion
offset `3`; inserting `0` after `3` destroys the non-decreasing order
(the correct offset would be `0`). -/
theorem claim_C4_counterexample :
    List.Sorted (fun a b => a ≤ b) ([1, 2, 3] : List Int) ∧
    indirectBinarySearch [(1 : Int), 2, 3] [0, 1, 2] 0 0 3 natOrderCompare =
      Except.ok (some (-4)) ∧
    ¬ List.Sorted (fun a b => a ≤ b)
        (spliceInsert ([1, 2, 3] : List Int) 3 0) :=
  ⟨by decide, rfl, by decide⟩

/-- C10: `indirectBinarySearch` throws a `RangeError` exactly per its
bounds checks — `start < 0` reports the invalid start,
`end > sortedIndexes.length` (with a valid start) reports the invalid
end — and for in-range bounds it returns a value (an existing index, a
negative insertion marker, or `undefined`) without throwing. -/
theorem claim_C10 {α : Type} [Inhabited α] (source : List α) (idx : List Nat)
    (seeked : α) (start stop : Int) (cmp : Compare α) :
    (start < 0 →
      indirectBinarySearch source idx seeked start stop cmp =
        Except.error "RangeError: Invalid start index") ∧
    (0 ≤ start → (idx.length : Int) < stop →
      indirectBinarySearch source idx seeked start stop cmp =
        Except.error "RangeError: Invalid end index") ∧
    (0 ≤ start → stop ≤ (idx.length : Int) →
      ∃ r, indirectBinarySearch source idx seeked start stop cmp =
        Except.ok r) := by
  refine ⟨fun h => ?_, fun h1 h2 => ?_, fun h1 h2 => ?_⟩
  · simp [indirectBinarySearch, h]
  · rw [indirectBinarySearch, if_neg (by omega), if_pos (by omega)]
  · exact ⟨_, by rw [indirectBinarySearch, if_neg (by omega), if_neg (by omega)]⟩

/-- Witness for C10 at concrete inputs: a negative start errors, an
oversized end errors, and in-range bounds return a value. -/
theorem claim_C10_witness :
    indirectBinarySearch [(1 : Int), 2] [0, 1] 0 (-1) 1 natOrderCompare =
      Except.error "RangeError: Invalid start index" ∧
    indirectBinarySearch [(1 : Int), 2] [0, 1] 0 0 3 natOrderCompare =
      Except.error "RangeError: Invalid end index" ∧
    (∃ r, indirectBinarySearch [(1 : Int), 2] [0, 1] 0 0 2 natOrderCompare =
      Except.ok r) :=
  ⟨(claim_C10 [(1 : Int), 2] [0, 1] 0 (-1) 1 natOrderCompare).1 (by decide),
   (claim_C10 [(1 : Int), 2] [0, 1] 0 0 3 natOrderCompare).2.1 (by decide) (by decide),
   (claim_C10 [(1 : Int), 2] [0, 1] 0 0 2 natOrderCompare).2.2 (by decide) (by decide)⟩

/-! ## Helper lemmas on the embedded operations -/

/-- Referenced value: `source[sortedIndexes[i]]`. -/
def refVal {α : Type} [Inhabited α] (source : List α) (idx : List Nat) (i : Nat) : α :=
  source.getD (idx.getD i 0) default

theorem spliceInsert_length {β : Type} (l : List β) (pos : Nat) (a : β) :
    (spliceInsert l pos a).length = l.length + 1 := by
  simp [spliceInsert]; omega

theorem spliceInsert_getD_of_lt {β : Type} {l : List β} {pos p : Nat} (a : β) (d : β)
    (h : p < pos) (hpos : pos ≤ l.length) :
    (spliceInsert l pos a).getD p d = l.getD p d := by
  have h1 : p < (l.take pos).length := by simp [List.length_take]; omega
  simp only [spliceInsert, List.getD_eq_getElem?_getD, List.getElem?_append, if_pos h1,
    List.getElem?_take, if_pos h]

theorem spliceInsert_getD_self {β : Type} {l : List β} {pos : Nat} (a : β) (d : β)
    (hpos : pos ≤ l.length) :
    (spliceInsert l pos a).getD pos d = a := by
  have h2 : (l.take pos).length = pos := by simp [List.length_take]; omega
  have h1 : ¬ (pos < (l.take pos).length) := by omega
  rw [spliceInsert, List.getD_eq_getElem?_getD, List.getElem?_append, if_neg h1, h2]
  simp

theorem spliceInsert_getD_of_gt {β : Type} {l : List β} {pos p : Nat} (a : β) (d : β)
    (h : pos < p) (hpos : pos ≤ l.length) :
    (spliceInsert l pos a).getD p d = l.getD (p - 1) d := by
  have h2 : (l.take pos).length = pos := by simp [List.length_take]; omega
  have h1 : ¬ (p < (l.take pos).length) := by omega
  have h3 : p - pos = (p - pos - 1) + 1 := by omega
  rw [spliceInsert, List.getD_eq_getElem?_getD, List.getElem?_append, if_neg h1, h2, h3,
    List.getElem?_cons_succ, List.getElem?_drop, List.getD_eq_getElem?_getD]
  congr 2
  omega

theorem spliceInsert_mem {β : Type} {l : List β} {pos : Nat} {a k : β}
    (hk : k ∈ spliceInsert l pos a) : k = a ∨ k ∈ l := by
  rcases List.mem_append.1 hk with h | h
  · exact Or.inr (List.take_subset _ _ h)
  · rcases List.mem_cons.1 h with h | h
    · exact Or.inl h
    · exact Or.inr (List.drop_subset _ _ h)

theorem ibsLoop_total {α : Type} [Inhabited α] (source : List α) (idx : List Nat)
    (seeked : α) (t : α → α → Int) :
    ∀ fuel start stop, ∃ r,
      ibsLoop source idx seeked (fun a b => some (t a b)) fuel start stop = some r := by
  intro fuel
  induction fuel with
  | zero => intro s e; exact ⟨_, rfl⟩
  | succ f ih =>
    intro s e
    by_cases h : s < e
    · simp only [ibsLoop, if_pos h]
      split_ifs with h1 h2
      · exact ⟨_, rfl⟩
      · exact ih s ((s + e) / 2)
      · exact ih ((s + e) / 2 + 1) e
    · refine ⟨-1 - (s : Int), ?_⟩
      simp only [ibsLoop, if_neg h]

theorem indirectBinarySearch_zero_len {α : Type} [Inhabited α] (source : List α)
    (idx : List Nat) (seeked : α) (cmp : Compare α) :
    indirectBinarySearch source idx seeked 0 (idx.length : Int) cmp =
      Except.ok (ibsLoop source idx seeked cmp idx.length 0 idx.length) := by
  rw [indirectBinarySearch, if_neg (by omega), if_neg (by omega)]
  simp

theorem dup_ok_total {α : Type} [Inhabited α] (source : List α) (idx : List Nat)
    (seeked : α) (t : α → α → Int) :
    ∃ r, indirectBinarySearchWithDuplicates source idx seeked 0 (idx.length : Int)
      (fun a b => some (t a b)) false = Except.ok (some r) := by
  obtain ⟨r, hr⟩ := ibsLoop_total source idx seeked t idx.length 0 idx.length
  rw [indirectBinarySearchWithDuplicates, indirectBinarySearch_zero_len, hr]
  exact ⟨_, rfl⟩

theorem combineStep_ok_total {α : Type} [Inhabited α] (roll : List α)
    (t : α → α → Int) (count : Nat) (result : List Nat) (index : Nat) :
    ∃ res2, combineStep roll (fun a b => some (t a b)) count result index =
        Except.ok res2 ∧
      res2.length = min (result.length + 1) count := by
  obtain ⟨r, hr⟩ := dup_ok_total roll result (roll.getD index default) t
  rw [combineStep, hr]
  refine ⟨_, rfl, ?_⟩
  set pos := ((if r < 0 then -1 - r else r + 1)).toNat with hposdef
  have hL : (spliceInsert result pos index).length = result.length + 1 :=
    spliceInsert_length result pos index
  by_cases h : count < (spliceInsert result pos index).length
  · rw [if_pos h, List.length_take, hL]
    rw [hL] at h
    omega
  · rw [if_neg h, hL]
    rw [hL] at h
    omega

theorem foldlM_range_inv {sigma : Type} (f : sigma → Nat → Except String sigma)
    (P : Nat → sigma → Prop) (init : sigma) (h0 : P 0 init)
    (hstep : ∀ i s, P i s → ∃ s2, f s i = Except.ok s2 ∧ P (i + 1) s2) :
    ∀ n, ∃ s, (List.range n).foldlM f init = Except.ok s ∧ P n s := by
  intro n
  induction n with
  | zero => exact ⟨init, rfl, h0⟩
  | succ k ih =>
    obtain ⟨s, hs, hP⟩ := ih
    obtain ⟨s2, hs2, hP2⟩ := hstep k s hP
    refine ⟨s2, ?_, hP2⟩
    rw [List.range_succ, List.foldlM_append, hs]
    show List.foldlM f s [k] = Except.ok s2
    rw [List.foldlM_cons, hs2]
    show List.foldlM f s2 [] = Except.ok s2
    rfl

theorem keepCombineIndices_ok_total {α : Type} [Inhabited α] (t : α → α → Int)
    (count : Nat) (roll : List α) :
    ∃ idxs, keepCombineIndices (fun a b => some (t a b)) count roll =
        Except.ok idxs ∧
      idxs.length = min roll.length count := by
  unfold keepCombineIndices
  refine foldlM_range_inv _ (fun i s => s.length = min i count) [] ?_ ?_ roll.length
  · simp
  · intro i s hP
    obtain ⟨s2, h1, h2⟩ := combineStep_ok_total roll t count s i
    exact ⟨s2, h1, by omega⟩

/-- C6: for every total comparator (every pair of roll values comparable)
and every non-negative count, `KeepBestCombiner.combine` succeeds and its
result has length `min(count, roll.length)`: each of the `roll.length`
reduction steps inserts exactly one index and then truncates the kept
list to at most `count` entries. -/
theorem claim_C6 {α : Type} [Inhabited α] (t : α → α → Int) (count : Nat)
    (roll : List α) :
    ∃ l, KeepBestCombiner.combine (fun a b => some (t a b)) count roll =
        Except.ok l ∧
      l.length = min count roll.length := by
  obtain ⟨idxs, h1, h2⟩ := keepCombineIndices_ok_total (fun a b => t b a) count roll
  refine ⟨idxs.map (fun i => roll.getD i default), ?_, by simp; omega⟩
  rw [KeepBestCombiner.combine, h1]
  rfl


/-- Lawfulness of a total three-way comparator: antisymmetric under
argument flip, transitive on non-negative results, and substitutive on
equal values.  Every comparator derived from a linear order satisfies
these. -/
structure LawfulCmp {α : Type} (t : α → α → Int) : Prop where
  flip : ∀ a b, t b a = -(t a b)
  trans_ge : ∀ a b c, 0 ≤ t a b → 0 ≤ t b c → 0 ≤ t a c
  eq_subst : ∀ a b c, t a b = 0 → t a c = t b c

theorem LawfulCmp.same {α : Type} {t : α → α → Int} (h : LawfulCmp t) (a : α) :
    t a a = 0 := by
  have := h.flip a a; omega

theorem LawfulCmp.neg_of_ge_neg {α : Type} {t : α → α → Int} (h : LawfulCmp t)
    {a b s : α} (h1 : 0 ≤ t a b) (h2 : t a s < 0) : t b s < 0 := by
  by_contra h3
  push_neg at h3
  have := h.trans_ge a b s h1 h3
  omega

theorem LawfulCmp.pos_of_ge_pos {α : Type} {t : α → α → Int} (h : LawfulCmp t)
    {a b s : α} (h1 : 0 ≤ t a b) (h2 : 0 < t b s) : 0 < t a s := by
  by_contra h3
  push_neg at h3
  have h4 : 0 ≤ t s a := by have := h.flip a s; omega
  have h5 : 0 ≤ t s b := h.trans_ge s a b h4 h1
  have := h.flip b s
  omega

theorem LawfulCmp.eq_substR {α : Type} {t : α → α → Int} (h : LawfulCmp t)
    {a b : α} (c : α) (h1 : t a b = 0) : t c a = t c b := by
  have h2 := h.eq_subst a b c h1
  have h3 := h.flip c a
  have h4 := h.flip c b
  have h5 := h.flip a c
  have h6 := h.flip b c
  omega

theorem LawfulCmp.flipped {α : Type} {t : α → α → Int} (h : LawfulCmp t) :
    LawfulCmp (fun a b => t b a) := by
  constructor
  · intro a b
    exact h.flip b a
  · intro a b c h1 h2
    exact h.trans_ge c b a h2 h1
  · intro a b c h1
    have h2 : t a b = 0 := by have := h.flip a b; omega
    exact h.eq_substR c h2

theorem natOrderCmp_lawful : LawfulCmp natOrderCmp := by
  constructor
  · intro a b
    unfold natOrderCmp
    split_ifs <;> omega
  · intro a b c h1 h2
    unfold natOrderCmp at *
    split_ifs at * <;> omega
  · intro a b c h1
    have hab : a = b := by
      unfold natOrderCmp at h1
      split_ifs at h1 <;> omega
    rw [hab]

theorem ibsLoop_none_exists {α : Type} [Inhabited α] (source : List α)
    (idx : List Nat) (seeked : α) (cmp : Compare α) :
    ∀ fuel start stop, stop ≤ idx.length →
      ibsLoop source idx seeked cmp fuel start stop = none →
      ∃ i, i < idx.length ∧ cmp (source.getD (idx.getD i 0) default) seeked = none := by
  intro fuel
  induction fuel with
  | zero =>
    intro s e _ h
    simp [ibsLoop] at h
  | succ f ih =>
    intro s e he h
    by_cases hlt : s < e
    · rw [ibsLoop, if_pos hlt] at h
      rcases hc : cmp (source.getD (idx.getD ((s + e) / 2) 0) default) seeked with _ | c
      · exact ⟨(s + e) / 2, by omega, hc⟩
      · simp only [hc] at h
        split_ifs at h with h1 h2
        · exact ih s ((s + e) / 2) (by omega) h
        · exact ih ((s + e) / 2 + 1) e he h
    · rw [ibsLoop, if_neg hlt] at h
      exact absurd h (by simp)

theorem ibsLoop_sorted_spec {α : Type} [Inhabited α] (source : List α)
    (idx : List Nat) (seeked : α) {t : α → α → Int} (lc : LawfulCmp t)
    (hsorted : ∀ p q, p ≤ q → q < idx.length →
      0 ≤ t (source.getD (idx.getD p 0) default) (source.getD (idx.getD q 0) default)) :
    ∀ fuel start stop, stop - start ≤ fuel → start ≤ stop → stop ≤ idx.length →
    (∀ i, i < start → 0 < t (source.getD (idx.getD i 0) default) seeked) →
    (∀ i, stop ≤ i → i < idx.length →
      t (source.getD (idx.getD i 0) default) seeked < 0) →
    ∃ r, ibsLoop source idx seeked (fun a b => some (t a b)) fuel start stop = some r ∧
      ((0 ≤ r ∧ r.toNat < idx.length ∧
        t (source.getD (idx.getD r.toNat 0) default) seeked = 0) ∨
       (r < 0 ∧ (-1 - r).toNat ≤ idx.length ∧
        (∀ i, i < (-1 - r).toNat →
          0 < t (source.getD (idx.getD i 0) default) seeked) ∧
        (∀ i, (-1 - r).toNat ≤ i → i < idx.length →
          t (source.getD (idx.getD i 0) default) seeked < 0))) := by
  intro fuel
  induction fuel with
  | zero =>
    intro s e hf hse he hpre hsuf
    have hes : s = e := by omega
    refine ⟨-1 - (s : Int), rfl, Or.inr ⟨by omega, by omega, ?_, ?_⟩⟩
    · intro i hi
      exact hpre i (by omega)
    · intro i hi hilen
      exact hsuf i (by omega) hilen
  | succ f ih =>
    intro s e hf hse he hpre hsuf
    by_cases hlt : s < e
    · have hc1 : s ≤ (s + e) / 2 := by omega
      have hc2 : (s + e) / 2 < e := by omega
      simp only [ibsLoop, if_pos hlt]
      split_ifs with h1 h2
      · refine ⟨((s + e) / 2 : Nat), rfl, Or.inl ⟨by omega, by omega, ?_⟩⟩
        have hnn : (((s + e) / 2 : Nat) : Int).toNat = (s + e) / 2 := by omega
        rw [hnn]
        exact h1
      · refine ih s ((s + e) / 2) (by omega) (by omega) (by omega) hpre ?_
        intro i hi hilen
        exact lc.neg_of_ge_neg (hsorted ((s + e) / 2) i hi hilen) h2
      · have h3 : 0 < t (source.getD (idx.getD ((s + e) / 2) 0) default) seeked := by
          omega
        refine ih ((s + e) / 2 + 1) e (by omega) (by omega) he ?_ hsuf
        intro i hi
        exact lc.pos_of_ge_pos (hsorted i ((s + e) / 2) (by omega) (by omega)) h3
    · have hes : s = e := by omega
      refine ⟨-1 - (s : Int), ?_, Or.inr ⟨by omega, by omega, ?_, ?_⟩⟩
      · simp only [ibsLoop, if_neg hlt]
      · intro i hi
        exact hpre i (by omega)
      · intro i hi hilen
        exact hsuf i (by omega) hilen

/-- C4 (amended): for a comparator lawful for a total order and an index
array whose referenced values are sorted non-increasingly (descending)
under it, `indirectBinarySearch` over the whole index range returns
either an existing position `r ≥ 0` with
`compare(source[sortedIndexes[r]], seeked) = 0`, or a negative marker
`-1 - off` with `0 ≤ off ≤ sortedIndexes.length` such that every
referenced value before `off` is strictly greater than the seek value and
every referenced value from `off` on is strictly smaller — i.e. inserting
the seek value at `off` keeps the index set sorted descending.  For an
arbitrary partial comparator, a result of `undefined` implies that some
comparison with a referenced value yields `Incomparable`.  (The claim as
frozen asserts this for non-decreasingly sorted values; the search in
fact requires the descending orientation, see the counterexample.) -/
theorem claim_C4 {α : Type} [Inhabited α] (source : List α) (idx : List Nat)
    (seeked : α) (t : α → α → Int) (lc : LawfulCmp t)
    (hsorted : ∀ p q, p ≤ q → q < idx.length →
      0 ≤ t (refVal source idx p) (refVal source idx q)) :
    (∃ r, indirectBinarySearch source idx seeked 0 (idx.length : Int)
        (fun a b => some (t a b)) = Except.ok (some r) ∧
      ((0 ≤ r ∧ r.toNat < idx.length ∧
        t (refVal source idx r.toNat) seeked = 0) ∨
       (r < 0 ∧ (-1 - r).toNat ≤ idx.length ∧
        (∀ i, i < (-1 - r).toNat → 0 < t (refVal source idx i) seeked) ∧
        (∀ i, (-1 - r).toNat ≤ i → i < idx.length →
          t (refVal source idx i) seeked < 0)))) ∧
    (∀ cmp : Compare α,
      indirectBinarySearch source idx seeked 0 (idx.length : Int) cmp =
        Except.ok none →
      ∃ i, i < idx.length ∧ cmp (refVal source idx i) seeked = none) := by
  constructor
  · obtain ⟨r, hr, hprops⟩ := ibsLoop_sorted_spec source idx seeked lc hsorted
      idx.length 0 idx.length (by omega) (by omega) (by omega)
      (by omega) (by omega)
    refine ⟨r, ?_, hprops⟩
    rw [indirectBinarySearch_zero_len, hr]
  · intro cmp h
    rw [indirectBinarySearch_zero_len] at h
    exact ibsLoop_none_exists source idx seeked cmp idx.length 0 idx.length
      (le_refl _) (by injection h)

/-- Witness for C4 on the descending values `[3, 2, 1]` with indexes
`[0, 1, 2]` and seek value `2` under natural order. -/
theorem claim_C4_witness :
    ∃ r, indirectBinarySearch [(3 : Int), 2, 1] [0, 1, 2] 2 0 3
        (fun a b => some (natOrderCmp a b)) = Except.ok (some r) :=
  ((claim_C4 [(3 : Int), 2, 1] [0, 1, 2] 2 natOrderCmp natOrderCmp_lawful
    (by
      intro p q hpq hq
      simp only [List.length_cons, List.length_nil] at hq
      interval_cases q <;> interval_cases p <;> decide)).1).imp
    (fun r hr => hr.1)


theorem combineStep_empty {α : Type} [Inhabited α] (roll : List α)
    (cmp : Compare α) (count : Nat) (hcount : 1 ≤ count) :
    combineStep roll cmp count [] 0 = Except.ok [0] := by
  rw [combineStep]
  simp only [indirectBinarySearchWithDuplicates, indirectBinarySearch, ibsLoop]
  norm_num
  rw [spliceInsert, if_neg (by simp; omega)]
  rfl

theorem combineStep_second_none {α : Type} [Inhabited α] (a b : α)
    (rest : List α) (cmp : Compare α) (count : Nat)
    (hnone : cmp a b = none) :
    combineStep (a :: b :: rest) cmp count [0] 1 =
      Except.error "Cannot combine a roll with non-comparable values" := by
  rw [combineStep]
  simp [indirectBinarySearchWithDuplicates, indirectBinarySearch, ibsLoop, hnone]

theorem keepCombineIndices_first_two_none {α : Type} [Inhabited α] (a b : α)
    (rest : List α) (cmp : Compare α) (count : Nat) (hcount : 1 ≤ count)
    (hnone : cmp a b = none) :
    keepCombineIndices cmp count (a :: b :: rest) =
      Except.error "Cannot combine a roll with non-comparable values" := by
  rw [keepCombineIndices]
  have hlen : (a :: b :: rest).length = rest.length + 1 + 1 := by simp
  rw [hlen, List.range_succ_eq_map, List.range_succ_eq_map, List.map_cons,
    List.foldlM_cons, combineStep_empty _ _ _ hcount]
  show List.foldlM
      (fun result index => combineStep (a :: b :: rest) cmp count result index) [0]
      ((1 : Nat) :: List.map Nat.succ (List.map Nat.succ (List.range rest.length))) =
    Except.error "Cannot combine a roll with non-comparable values"
  rw [List.foldlM_cons, combineStep_second_none a b rest cmp count hnone]
  rfl

/-- C7 (amended): an `Incomparable` comparison actually performed during
the reduction makes the whole combine fail with the comparability error
and no partial result — in particular, with at least one kept slot, a
roll whose first two elements are incomparable under the combiner's
internal comparator always fails; while a totally comparable roll always
succeeds.  (A roll merely containing an incomparable pair may still
succeed when the pair is never compared, see the counterexample.) -/
theorem claim_C7 {α : Type} [Inhabited α] :
    (∀ (t : α → α → Int) (count : Nat) (roll : List α),
      ∃ l, KeepBestCombiner.combine (fun a b => some (t a b)) count roll =
        Except.ok l) ∧
    (∀ (t : α → α → Int) (count : Nat) (roll : List α),
      ∃ l, KeepWorstCombiner.combine (fun a b => some (t a b)) count roll =
        Except.ok l) ∧
    (∀ (cmp : Compare α) (count : Nat) (a b : α) (rest : List α),
      1 ≤ count → cmp b a = none →
      KeepBestCombiner.combine cmp count (a :: b :: rest) =
        Except.error "Cannot combine a roll with non-comparable values") ∧
    (∀ (cmp : Compare α) (count : Nat) (a b : α) (rest : List α),
      1 ≤ count → cmp a b = none →
      KeepWorstCombiner.combine cmp count (a :: b :: rest) =
        Except.error "Cannot combine a roll with non-comparable values") := by
  refine ⟨fun t count roll => ?_, fun t count roll => ?_,
    fun cmp count a b rest hcount hnone => ?_,
    fun cmp count a b rest hcount hnone => ?_⟩
  · obtain ⟨idxs, h1, _⟩ := keepCombineIndices_ok_total (fun a b => t b a) count roll
    exact ⟨_, by rw [KeepBestCombiner.combine, h1]; rfl⟩
  · obtain ⟨idxs, h1, _⟩ := keepCombineIndices_ok_total t count roll
    exact ⟨_, by rw [KeepWorstCombiner.combine, h1]; rfl⟩
  · rw [KeepBestCombiner.combine,
      keepCombineIndices_first_two_none a b rest _ count hcount hnone]
    rfl
  · rw [KeepWorstCombiner.combine,
      keepCombineIndices_first_two_none a b rest cmp count hcount hnone]
    rfl

/-- Witness for C7: a totally comparable roll succeeds, and rolls whose
first two elements are incomparable fail for both combiners. -/
theorem claim_C7_witness :
    (∃ l, KeepBestCombiner.combine (fun a b => some (natOrderCmp a b)) 2
      [3, 5, 2] = Except.ok l) ∧
    KeepBestCombiner.combine partialNatCompare 1 [5, 99] =
      Except.error "Cannot combine a roll with non-comparable values" ∧
    KeepWorstCombiner.combine partialNatCompare 1 [5, 99] =
      Except.error "Cannot combine a roll with non-comparable values" :=
  ⟨(@claim_C7 Int _).1 natOrderCmp 2 [3, 5, 2],
   (@claim_C7 Int _).2.2.1 partialNatCompare 1 5 99 [] (by decide) (by decide),
   (@claim_C7 Int _).2.2.2 partialNatCompare 1 5 99 [] (by decide) (by decide)⟩

/-! ## Sorted-search correctness and stability machinery -/


/-- Sortedness (non-increasing under `t`) of the values referenced by an
index list. -/
def sortedIdx {α : Type} [Inhabited α] (t : α → α → Int) (source : List α)
    (idx : List Nat) : Prop :=
  ∀ p q, p ≤ q → q < idx.length →
    0 ≤ t (source.getD (idx.getD p 0) default) (source.getD (idx.getD q 0) default)

/-- Stability of an index list: entries referencing equal values are in
increasing index order. -/
def stableIdx {α : Type} [Inhabited α] (t : α → α → Int) (source : List α)
    (idx : List Nat) : Prop :=
  ∀ p q, p < q → q < idx.length →
    t (source.getD (idx.getD p 0) default) (source.getD (idx.getD q 0) default) = 0 →
    idx.getD p 0 < idx.getD q 0

theorem getD_mem {β : Type} {l : List β} {p : Nat} (d : β) (h : p < l.length) :
    l.getD p d ∈ l := by
  rw [List.getD_eq_getElem l d h]
  exact List.getElem_mem h

theorem take_getD {β : Type} (l : List β) (c p : Nat) (d : β) (h : p < c) :
    (l.take c).getD p d = l.getD p d := by
  simp [List.getD_eq_getElem?_getD, List.getElem?_take, h]

theorem walkUp_spec {α : Type} [Inhabited α] (source : List α) (idx : List Nat)
    (t : α → α → Int) (compared : α) :
    ∀ fuel ii, idx.length - 1 - ii ≤ fuel → ii < idx.length →
      t (source.getD (idx.getD ii 0) default) compared = 0 →
      ii ≤ walkUp source idx (fun a b => some (t a b)) compared fuel ii ∧
      walkUp source idx (fun a b => some (t a b)) compared fuel ii < idx.length ∧
      t (source.getD
          (idx.getD (walkUp source idx (fun a b => some (t a b)) compared fuel ii) 0)
          default) compared = 0 ∧
      (idx.length - 1 ≤ walkUp source idx (fun a b => some (t a b)) compared fuel ii ∨
       ¬ t (source.getD
            (idx.getD
              (walkUp source idx (fun a b => some (t a b)) compared fuel ii + 1) 0)
            default) compared = 0) := by
  intro fuel
  induction fuel with
  | zero =>
    intro ii hfuel hii heq
    refine ⟨le_refl _, ?_, ?_, ?_⟩
    · simpa [walkUp] using hii
    · simpa [walkUp] using heq
    · left
      simp only [walkUp]
      omega
  | succ f ih =>
    intro ii hfuel hii heq
    by_cases hcond : ii < idx.length - 1 ∧
        (fun a b => some (t a b)) (source.getD (idx.getD (ii + 1) 0) default) compared
          = some 0
    · rw [walkUp, if_pos hcond]
      have heq2 : t (source.getD (idx.getD (ii + 1) 0) default) compared = 0 :=
        Option.some.inj hcond.2
      obtain ⟨h1, h2, h3, h4⟩ := ih (ii + 1) (by omega) (by omega) heq2
      exact ⟨by omega, h2, h3, h4⟩
    · rw [walkUp, if_neg hcond]
      refine ⟨le_refl _, hii, heq, ?_⟩
      by_cases hlt : ii < idx.length - 1
      · right
        intro hzero
        exact hcond ⟨hlt, congrArg some hzero⟩
      · left
        omega

theorem walkDown_stay {α : Type} [Inhabited α] (source : List α) (idx : List Nat)
    (cmp : Compare α) (compared : α) (ii : Nat)
    (h : ii = 0 ∨
      ¬ cmp (source.getD (idx.getD (ii - 1) 0) default) compared = some 0) :
    walkDown source idx cmp compared ii = ii := by
  cases ii with
  | zero => rfl
  | succ k =>
    rcases h with h | h
    · exact absurd h (by omega)
    · have h2 : ¬ cmp (source.getD (idx.getD k 0) default) compared = some 0 := by
        simpa using h
      rw [walkDown, if_neg h2]

theorem dup_eq_resolve {α : Type} [Inhabited α] {source : List α} {idx : List Nat}
    {seeked : α} {start stop : Int} {cmp : Compare α} {b : Int} (rfp : Bool)
    (h : indirectBinarySearch source idx seeked start stop cmp = Except.ok (some b)) :
    indirectBinarySearchWithDuplicates source idx seeked start stop cmp rfp =
      Except.ok (some (dupResolve source idx seeked cmp rfp b)) := by
  rw [indirectBinarySearchWithDuplicates, h]

theorem dupResolve_found {α : Type} [Inhabited α] (source : List α) (idx : List Nat)
    (seeked : α) (cmp : Compare α) {b : Int} (h0 : 0 ≤ b)
    (hlen : b.toNat < idx.length) :
    dupResolve source idx seeked cmp false b =
      ((walkUp source idx cmp (source.getD (idx.getD b.toNat 0) default)
        idx.length b.toNat : Nat) : Int) := by
  have hneg : ¬ b < 0 := by omega
  simp [dupResolve, hneg, hlen]

theorem dupResolve_notfound_outside {α : Type} [Inhabited α] (source : List α)
    (idx : List Nat) (seeked : α) (cmp : Compare α) {b : Int} (hneg : b < 0)
    (hout : ¬ (-1 - b).toNat < idx.length) :
    dupResolve source idx seeked cmp false b = -1 - (((-1 - b).toNat : Nat) : Int) := by
  simp [dupResolve, hneg, hout]

theorem dupResolve_notfound_inside {α : Type} [Inhabited α] (source : List α)
    (idx : List Nat) (seeked : α) (cmp : Compare α) {b : Int} (hneg : b < 0)
    (hin : (-1 - b).toNat < idx.length)
    (hnotlt : ltZero (cmp seeked
      (source.getD (idx.getD (-1 - b).toNat 0) default)) = false) :
    dupResolve source idx seeked cmp false b =
      -1 - ((walkDown source idx cmp
        (source.getD (idx.getD (-1 - b).toNat 0) default) (-1 - b).toNat : Nat) : Int) := by
  simp only [dupResolve, if_pos hneg, if_pos hin, hnotlt, Bool.not_false, if_false,
    Bool.false_eq_true, if_true]

theorem dup_sorted_spec {α : Type} [Inhabited α] (source : List α) (idx : List Nat)
    (seeked : α) {t : α → α → Int} (lc : LawfulCmp t)
    (hsorted : sortedIdx t source idx) :
    ∃ r, indirectBinarySearchWithDuplicates source idx seeked 0 (idx.length : Int)
        (fun a b => some (t a b)) false = Except.ok (some r) ∧
      (if r < 0 then -1 - r else r + 1).toNat ≤ idx.length ∧
      (∀ p, p < (if r < 0 then -1 - r else r + 1).toNat →
        0 ≤ t (source.getD (idx.getD p 0) default) seeked) ∧
      (∀ q, (if r < 0 then -1 - r else r + 1).toNat ≤ q → q < idx.length →
        t (source.getD (idx.getD q 0) default) seeked < 0) := by
  obtain ⟨r0, hr0, hprops⟩ := ibsLoop_sorted_spec source idx seeked lc hsorted
    idx.length 0 idx.length (by omega) (by omega) (by omega) (by omega) (by omega)
  have hibs : indirectBinarySearch source idx seeked 0 (idx.length : Int)
      (fun a b => some (t a b)) = Except.ok (some r0) := by
    rw [indirectBinarySearch_zero_len, hr0]
  rcases hprops with ⟨h0, hrl, hreq⟩ | ⟨hneg, hoff, hpre0, hsuf0⟩
  · -- found case: walk to the last entry of the equal run
    obtain ⟨hW1, hW2, hW3, hW4⟩ := walkUp_spec source idx t
      (source.getD (idx.getD r0.toNat 0) default) idx.length r0.toNat
      (by omega) hrl (lc.same _)
    set W := walkUp source idx (fun a b => some (t a b))
      (source.getD (idx.getD r0.toNat 0) default) idx.length r0.toNat with hWdef
    have hdup := dup_eq_resolve false hibs
    rw [dupResolve_found source idx seeked _ h0 hrl, ← hWdef] at hdup
    have tvW : t (source.getD (idx.getD W 0) default) seeked = 0 := by
      have h5 := lc.eq_subst (source.getD (idx.getD W 0) default)
        (source.getD (idx.getD r0.toNat 0) default) seeked hW3
      rw [h5, hreq]
    have hcond : ¬ ((W : Int) < 0) := by omega
    have hn : ((if (W : Int) < 0 then -1 - (W : Int) else (W : Int) + 1)).toNat
        = W + 1 := by
      rw [if_neg hcond]
      omega
    refine ⟨(W : Int), hdup, ?_, ?_, ?_⟩
    · rw [hn]
      omega
    · rw [hn]
      intro p hp
      have hpW : p ≤ W := by omega
      have hA := hsorted p W hpW hW2
      have f1 := lc.flip (source.getD (idx.getD p 0) default)
        (source.getD (idx.getD W 0) default)
      have f2 := lc.eq_subst (source.getD (idx.getD W 0) default) seeked
        (source.getD (idx.getD p 0) default) tvW
      have f3 := lc.flip (source.getD (idx.getD p 0) default) seeked
      omega
    · rw [hn]
      intro q hq hql
      have hWp1 : W + 1 < idx.length := by omega
      rcases hW4 with hstop | hne
      · omega
      · have hsub := lc.eq_substR (source.getD (idx.getD (W + 1) 0) default) hreq
        rw [hsub] at hne
        have hA := hsorted W (W + 1) (by omega) hWp1
        have f2 := lc.eq_subst (source.getD (idx.getD W 0) default) seeked
          (source.getD (idx.getD (W + 1) 0) default) tvW
        have f3 := lc.flip (source.getD (idx.getD (W + 1) 0) default) seeked
        have tneg : t (source.getD (idx.getD (W + 1) 0) default) seeked < 0 := by
          omega
        rcases eq_or_lt_of_le hq with rfl | hq2
        · exact tneg
        · exact lc.neg_of_ge_neg (hsorted (W + 1) q (by omega) hql) tneg
  · -- not-found case: the insertion offset is returned unchanged
    have hnn : ¬ ((-1 - r0) < 0) := by omega
    have hoffeq : ((if r0 < 0 then -1 - r0 else r0 + 1)).toNat = (-1 - r0).toNat := by
      rw [if_pos hneg]
    by_cases hin : (-1 - r0).toNat < idx.length
    · have hcneg : t (source.getD (idx.getD (-1 - r0).toNat 0) default) seeked < 0 :=
        hsuf0 _ (le_refl _) hin
      have hltZ : ltZero ((fun a b => some (t a b)) seeked
          (source.getD (idx.getD (-1 - r0).toNat 0) default)) = false := by
        simp only [ltZero, decide_eq_false_iff_not]
        have := lc.flip (source.getD (idx.getD (-1 - r0).toNat 0) default) seeked
        omega
      have hWD : walkDown source idx (fun a b => some (t a b))
          (source.getD (idx.getD (-1 - r0).toNat 0) default) (-1 - r0).toNat =
          (-1 - r0).toNat := by
        apply walkDown_stay
        by_cases h0 : (-1 - r0).toNat = 0
        · exact Or.inl h0
        · refine Or.inr ?_
          intro hzero
          have hz2 : t (source.getD (idx.getD ((-1 - r0).toNat - 1) 0) default)
              (source.getD (idx.getD (-1 - r0).toNat 0) default) = 0 :=
            Option.some.inj hzero
          have hp := hpre0 ((-1 - r0).toNat - 1) (by omega)
          have f2 := lc.eq_subst
            (source.getD (idx.getD ((-1 - r0).toNat - 1) 0) default)
            (source.getD (idx.getD (-1 - r0).toNat 0) default) seeked hz2
          omega
      have hdup := dup_eq_resolve false hibs
      rw [dupResolve_notfound_inside source idx seeked _ hneg hin hltZ, hWD] at hdup
      refine ⟨-1 - ((-1 - r0).toNat : Int), hdup, ?_, ?_, ?_⟩
      · have : ((if -1 - ((-1 - r0).toNat : Int) < 0 then
            -1 - (-1 - ((-1 - r0).toNat : Int)) else
            -1 - ((-1 - r0).toNat : Int) + 1)).toNat = (-1 - r0).toNat := by
          rw [if_pos (by omega)]
          omega
        rw [this]
        omega
      · rw [show ((if -1 - ((-1 - r0).toNat : Int) < 0 then
            -1 - (-1 - ((-1 - r0).toNat : Int)) else
            -1 - ((-1 - r0).toNat : Int) + 1)).toNat = (-1 - r0).toNat from by
          rw [if_pos (by omega)]; omega]
        intro p hp
        exact le_of_lt (hpre0 p hp)
      · rw [show ((if -1 - ((-1 - r0).toNat : Int) < 0 then
            -1 - (-1 - ((-1 - r0).toNat : Int)) else
            -1 - ((-1 - r0).toNat : Int) + 1)).toNat = (-1 - r0).toNat from by
          rw [if_pos (by omega)]; omega]
        exact hsuf0
    · have hdup := dup_eq_resolve false hibs
      rw [dupResolve_notfound_outside source idx seeked _ hneg hin] at hdup
      refine ⟨-1 - ((-1 - r0).toNat : Int), hdup, ?_, ?_, ?_⟩
      · rw [show ((if -1 - ((-1 - r0).toNat : Int) < 0 then
            -1 - (-1 - ((-1 - r0).toNat : Int)) else
            -1 - ((-1 - r0).toNat : Int) + 1)).toNat = (-1 - r0).toNat from by
          rw [if_pos (by omega)]; omega]
        omega
      · rw [show ((if -1 - ((-1 - r0).toNat : Int) < 0 then
            -1 - (-1 - ((-1 - r0).toNat : Int)) else
            -1 - ((-1 - r0).toNat : Int) + 1)).toNat = (-1 - r0).toNat from by
          rw [if_pos (by omega)]; omega]
        intro p hp
        exact le_of_lt (hpre0 p hp)
      · rw [show ((if -1 - ((-1 - r0).toNat : Int) < 0 then
            -1 - (-1 - ((-1 - r0).toNat : Int)) else
            -1 - ((-1 - r0).toNat : Int) + 1)).toNat = (-1 - r0).toNat from by
          rw [if_pos (by omega)]; omega]
        exact hsuf0

theorem insert_preserves {α : Type} [Inhabited α] {t : α → α → Int} (lc : LawfulCmp t)
    (roll : List α) (res : List Nat) (i n : Nat)
    (hn : n ≤ res.length)
    (hb : ∀ k ∈ res, k < i)
    (hs : sortedIdx t roll res)
    (hst : stableIdx t roll res)
    (hpre : ∀ p, p < n →
      0 ≤ t (roll.getD (res.getD p 0) default) (roll.getD i default))
    (hsuf : ∀ q, n ≤ q → q < res.length →
      t (roll.getD (res.getD q 0) default) (roll.getD i default) < 0) :
    (∀ k ∈ spliceInsert res n i, k < i + 1) ∧
    sortedIdx t roll (spliceInsert res n i) ∧
    stableIdx t roll (spliceInsert res n i) := by
  refine ⟨?_, ?_, ?_⟩
  · intro k hk
    rcases spliceInsert_mem hk with rfl | hmem
    · omega
    · have := hb k hmem
      omega
  · intro p q hpq hq
    rw [spliceInsert_length] at hq
    rcases Nat.lt_trichotomy q n with hq1 | hq1 | hq1
    · rw [spliceInsert_getD_of_lt i 0 (lt_of_le_of_lt hpq hq1) hn,
        spliceInsert_getD_of_lt i 0 hq1 hn]
      exact hs p q hpq (by omega)
    · subst hq1
      rw [spliceInsert_getD_self i 0 hn]
      rcases Nat.lt_or_ge p q with hp1 | hp1
      · rw [spliceInsert_getD_of_lt i 0 hp1 hn]
        exact hpre p hp1
      · have hpq2 : p = q := by omega
        subst hpq2
        rw [spliceInsert_getD_self i 0 hn]
        exact le_of_eq (lc.same _).symm
    · rw [spliceInsert_getD_of_gt i 0 hq1 hn]
      have hq2 : q - 1 < res.length := by omega
      rcases Nat.lt_trichotomy p n with hp1 | hp1 | hp1
      · rw [spliceInsert_getD_of_lt i 0 hp1 hn]
        exact hs p (q - 1) (by omega) hq2
      · subst hp1
        rw [spliceInsert_getD_self i 0 hn]
        have h1 := hsuf (q - 1) (by omega) hq2
        have h2 := lc.flip (roll.getD (res.getD (q - 1) 0) default)
          (roll.getD i default)
        omega
      · rw [spliceInsert_getD_of_gt i 0 hp1 hn]
        exact hs (p - 1) (q - 1) (by omega) hq2
  · intro p q hpq hq heq
    rw [spliceInsert_length] at hq
    rcases Nat.lt_trichotomy q n with hq1 | hq1 | hq1
    · rw [spliceInsert_getD_of_lt i 0 (lt_trans hpq hq1) hn,
        spliceInsert_getD_of_lt i 0 hq1 hn] at heq ⊢
      exact hst p q hpq (by omega) heq
    · subst hq1
      rw [spliceInsert_getD_self i 0 hn]
      have hp1 : p < q := hpq
      rw [spliceInsert_getD_of_lt i 0 hp1 hn]
      exact hb _ (getD_mem 0 (by omega))
    · rw [spliceInsert_getD_of_gt i 0 hq1 hn] at heq ⊢
      have hq2 : q - 1 < res.length := by omega
      rcases Nat.lt_trichotomy p n with hp1 | hp1 | hp1
      · rw [spliceInsert_getD_of_lt i 0 hp1 hn] at heq ⊢
        exact hst p (q - 1) (by omega) hq2 heq
      · subst hp1
        rw [spliceInsert_getD_self i 0 hn] at heq
        exfalso
        have h1 := hsuf (q - 1) (by omega) hq2
        have h2 := lc.flip (roll.getD (res.getD (q - 1) 0) default)
          (roll.getD i default)
        omega
      · rw [spliceInsert_getD_of_gt i 0 hp1 hn] at heq ⊢
        exact hst (p - 1) (q - 1) (by omega) hq2 heq

theorem take_preserves {α : Type} [Inhabited α] {t : α → α → Int}
    (roll : List α) (res2 : List Nat) (c : Nat)
    (hs : sortedIdx t roll res2) (hst : stableIdx t roll res2) :
    sortedIdx t roll (res2.take c) ∧ stableIdx t roll (res2.take c) := by
  constructor
  · intro p q hpq hq
    rw [List.length_take] at hq
    have hqc : q < c := by omega
    rw [take_getD _ _ _ _ (by omega : p < c), take_getD _ _ _ _ hqc]
    exact hs p q hpq (by omega)
  · intro p q hpq hq heq
    rw [List.length_take] at hq
    have hqc : q < c := by omega
    rw [take_getD _ _ _ _ (by omega : p < c), take_getD _ _ _ _ hqc] at heq ⊢
    exact hst p q hpq (by omega) heq

theorem combineStep_preserves {α : Type} [Inhabited α] {t : α → α → Int}
    (lc : LawfulCmp t) (roll : List α) (count : Nat) (i : Nat) (res : List Nat)
    (hb : ∀ k ∈ res, k < i) (hs : sortedIdx t roll res)
    (hst : stableIdx t roll res) :
    ∃ res2, combineStep roll (fun a b => some (t a b)) count res i = Except.ok res2 ∧
      (∀ k ∈ res2, k < i + 1) ∧ sortedIdx t roll res2 ∧ stableIdx t roll res2 := by
  obtain ⟨r, hdup, hn, hpre, hsuf⟩ :=
    dup_sorted_spec roll res (roll.getD i default) lc hs
  rw [combineStep, hdup]
  refine ⟨_, rfl, ?_⟩
  set n := ((if r < 0 then -1 - r else r + 1)).toNat with hndef
  obtain ⟨hb2, hs2, hst2⟩ := insert_preserves lc roll res i n hn hb hs hst hpre hsuf
  by_cases hc : count < (spliceInsert res n i).length
  · rw [if_pos hc]
    obtain ⟨hs3, hst3⟩ := take_preserves roll (spliceInsert res n i) count hs2 hst2
    exact ⟨fun k hk => hb2 k (List.take_subset _ _ hk), hs3, hst3⟩
  · rw [if_neg hc]
    exact ⟨hb2, hs2, hst2⟩

theorem keepCombineIndices_inv {α : Type} [Inhabited α] {t : α → α → Int}
    (lc : LawfulCmp t) (count : Nat) (roll : List α) :
    ∃ idxs, keepCombineIndices (fun a b => some (t a b)) count roll =
        Except.ok idxs ∧
      sortedIdx t roll idxs ∧ stableIdx t roll idxs := by
  unfold keepCombineIndices
  have h := foldlM_range_inv
    (fun result index => combineStep roll (fun a b => some (t a b)) count result index)
    (fun i s => (∀ k ∈ s, k < i) ∧ sortedIdx t roll s ∧ stableIdx t roll s)
    []
    ⟨by simp, by intro p q _ hq; simp at hq, by intro p q hpq hq; simp at hq⟩
    (fun i s hP => by
      obtain ⟨res2, h1, h2, h3, h4⟩ :=
        combineStep_preserves lc roll count i s hP.1 hP.2.1 hP.2.2
      exact ⟨res2, h1, h2, h3, h4⟩)
    roll.length
  obtain ⟨idxs, h1, _, h3, h4⟩ := h
  exact ⟨idxs, h1, h3, h4⟩

/-- C8: equal-valued kept entries keep their roll order.  For a lawful
total comparator, whenever the reduction of `KeepBestCombiner.combine` or
`KeepWorstCombiner.combine` produces the kept index list `idxs`, the
combiner returns exactly the values referenced by `idxs`, and any two
kept positions referencing comparator-equal values appear in increasing
roll-index order: earlier-rolled ties rank first among equals. -/
theorem claim_C8 {α : Type} [Inhabited α] (t : α → α → Int) (lc : LawfulCmp t)
    (count : Nat) (roll : List α) :
    (∀ idxs, keepCombineIndices (fun a b => some (t b a)) count roll =
        Except.ok idxs →
      KeepBestCombiner.combine (fun a b => some (t a b)) count roll =
        Except.ok (idxs.map (fun i => roll.getD i default)) ∧
      ∀ p q, p < q → q < idxs.length →
        t (roll.getD (idxs.getD p 0) default) (roll.getD (idxs.getD q 0) default) = 0 →
        idxs.getD p 0 < idxs.getD q 0) ∧
    (∀ idxs, keepCombineIndices (fun a b => some (t a b)) count roll =
        Except.ok idxs →
      KeepWorstCombiner.combine (fun a b => some (t a b)) count roll =
        Except.ok (idxs.map (fun i => roll.getD i default)) ∧
      ∀ p q, p < q → q < idxs.length →
        t (roll.getD (idxs.getD p 0) default) (roll.getD (idxs.getD q 0) default) = 0 →
        idxs.getD p 0 < idxs.getD q 0) := by
  constructor
  · intro idxs h
    obtain ⟨idxs2, h1, h3, h4⟩ := keepCombineIndices_inv lc.flipped count roll
    have hid : idxs = idxs2 := by
      have h5 := h.symm.trans h1
      exact (Except.ok.injEq _ _).mp h5
    subst hid
    refine ⟨by rw [KeepBestCombiner.combine, h]; rfl, ?_⟩
    intro p q hpq hq heq
    refine h4 p q hpq hq ?_
    have f := lc.flip (roll.getD (idxs.getD p 0) default)
      (roll.getD (idxs.getD q 0) default)
    show t (roll.getD (idxs.getD q 0) default) (roll.getD (idxs.getD p 0) default) = 0
    omega
  · intro idxs h
    obtain ⟨idxs2, h1, h3, h4⟩ := keepCombineIndices_inv lc count roll
    have hid : idxs = idxs2 := by
      have h5 := h.symm.trans h1
      exact (Except.ok.injEq _ _).mp h5
    subst hid
    exact ⟨by rw [KeepWorstCombiner.combine, h]; rfl, h4⟩

/-- Witness for C8 on the roll `[2, 1, 2, 2]` with count 3: KeepBest keeps
roll positions `[1, 0, 2]` and KeepWorst keeps `[0, 2, 3]`; in both, the
positions of the equal values `2` appear in increasing roll order. -/
theorem claim_C8_witness :
    KeepBestCombiner.combine (fun a b => some (natOrderCmp a b)) 3
      [(2 : Int), 1, 2, 2] = Except.ok [1, 2, 2] ∧
    (([1, 0, 2] : List Nat).getD 1 0 < ([1, 0, 2] : List Nat).getD 2 0) ∧
    KeepWorstCombiner.combine (fun a b => some (natOrderCmp a b)) 3
      [(2 : Int), 1, 2, 2] = Except.ok [2, 2, 2] ∧
    (([0, 2, 3] : List Nat).getD 0 0 < ([0, 2, 3] : List Nat).getD 1 0) :=
  ⟨((claim_C8 natOrderCmp natOrderCmp_lawful 3 [(2 : Int), 1, 2, 2]).1
      [1, 0, 2] rfl).1,
   ((claim_C8 natOrderCmp natOrderCmp_lawful 3 [(2 : Int), 1, 2, 2]).1
      [1, 0, 2] rfl).2 1 2 (by decide) (by decide) (by decide),
   ((claim_C8 natOrderCmp natOrderCmp_lawful 3 [(2 : Int), 1, 2, 2]).2
      [0, 2, 3] rfl).1,
   ((claim_C8 natOrderCmp natOrderCmp_lawful 3 [(2 : Int), 1, 2, 2]).2
      [0, 2, 3] rfl).2 0 1 (by decide) (by decide) (by decide)⟩

end Diceodel
